import Mathlib

/-!
Shallow embedding of the Bunwork routing and dispatch engine (the trie-based
variant of the source: class `Bunwork` with `addRoute` / `matchRoute` /
`handle`, and class `Blueprint`).

Modelling conventions:
* Path and segment strings are `List Char`; request/route paths are split on
  the character `/` exactly as `path.split("/").filter(Boolean)` does.
* JavaScript `Map<string, RouteNode>` children maps (and the `Record`
  parameter object) are association lists with `set` replacing an existing
  key in place and appending a fresh key, which is observationally equal to
  the `get`/`has`/`set` protocol the source uses.
* Handlers are opaque identifiers (`Nat`); at dispatch level an environment
  `henv : Nat → Params → Resp` supplies each handler's response.
* The filesystem read `file(join(dir, rel)).arrayBuffer()` together with its
  try/catch is abstracted as `readF : dir → rel → Option String`
  (`none` models any read failure, which the source collapses to one 404).
* `handle` additionally returns the list of observable events (middleware
  invocations, route-handler invocation, static-file read attempts) so that
  "is never invoked" claims are statable.
-/

namespace Bunwork

/-- A path segment (the text between two `/`). -/
abbrev Seg := List Char

/-- The extracted parameter map `params : Record<string, string>`. -/
abbrev Params := List (Seg × Seg)

/-- The two HTTP methods the route tree supports. -/
inductive Method where
  | GET
  | POST
deriving DecidableEq, Repr

/-- `interface RouteNode { children: Map<string, RouteNode>; paramName?; handler? }`. -/
inductive RouteNode : Type where
  | mk : List (Seg × RouteNode) → Option Seg → Option Nat → RouteNode

/-- A children map: `Map<string, RouteNode>`. -/
abbrev NodeMap := List (Seg × RouteNode)

/-- The `children` field of a `RouteNode`. -/
def RouteNode.children : RouteNode → NodeMap
  | .mk c _ _ => c

/-- The optional `paramName` field of a `RouteNode`. -/
def RouteNode.paramName : RouteNode → Option Seg
  | .mk _ p _ => p

/-- The optional `handler` field of a `RouteNode`. -/
def RouteNode.handler : RouteNode → Option Nat
  | .mk _ _ h => h

/-- `Map.get` on a children map (also covers `Map.has`). -/
def lookupC : NodeMap → Seg → Option RouteNode
  | [], _ => none
  | (k', v') :: rest, k => if k' = k then some v' else lookupC rest k

/-- `Map.set` on a children map: replace in place if the key exists,
otherwise append. -/
def setC : NodeMap → Seg → RouteNode → NodeMap
  | [], k, v => [(k, v)]
  | (k', v') :: rest, k, v => if k' = k then (k, v) :: rest else (k', v') :: setC rest k v

/-- `params[name] = value` on a JS object: overwrite in place or append. -/
def setParam : Params → Seg → Seg → Params
  | [], k, v => [(k, v)]
  | (k', v') :: rest, k, v => if k' = k then (k, v) :: rest else (k', v') :: setParam rest k v

/-- `path.split("/").filter(Boolean)`, accumulator form: `cur` is the
current (reversed) run of non-`/` characters. -/
def pathPartsAux (cur : List Char) : List Char → List Seg
  | [] => if cur = [] then [] else [cur.reverse]
  | c :: cs =>
    if c = '/' then
      if cur = [] then pathPartsAux [] cs else cur.reverse :: pathPartsAux [] cs
    else pathPartsAux (c :: cur) cs

/-- `path.split("/").filter(Boolean)`: the maximal nonempty runs of
non-`/` characters of the path. -/
def pathParts (p : List Char) : List Seg := pathPartsAux [] p

/-- The key a pattern segment is stored under:
`part.startsWith(":") ? ":" : part`. -/
def keyOf (part : Seg) : Seg :=
  match part with
  | [] => []
  | c :: rest => if c = ':' then [':'] else c :: rest

/-- `if (part.startsWith(":")) node.paramName = part.slice(1)`. -/
def updParam (part : Seg) (n : RouteNode) : RouteNode :=
  match part with
  | [] => n
  | c :: nm => if c = ':' then RouteNode.mk n.children (some nm) n.handler else n

/-- The fresh node `{ children: new Map() }` created for a missing key. -/
def newNode : RouteNode := RouteNode.mk [] none none

/-- The registration walk of `addRoute` over the already-split segments:
fetch or create the node at `keyOf part`, update `paramName` for dynamic
segments, descend into its children, and set `handler` on the final node.
With an empty segment list the source throws after having mutated nothing,
so the map is returned unchanged. -/
def insertGo : NodeMap → List Seg → Nat → NodeMap
  | c, [], _ => c
  | c, part :: rest, h =>
    let key := keyOf part
    let node := updParam part ((lookupC c key).getD newNode)
    match rest with
    | [] => setC c key (RouteNode.mk node.children node.paramName (some h))
    | r :: rs => setC c key (RouteNode.mk (insertGo node.children (r :: rs) h) node.paramName node.handler)

/-- The per-method route tree pair built by `createRouteTree()`. -/
structure Routes where
  getRoot : NodeMap
  postRoot : NodeMap

/-- `createRouteTree()`: empty root maps for GET and POST. -/
def createRouteTree : Routes := ⟨[], []⟩

/-- The root map of the given method. -/
def rootOf (t : Routes) : Method → NodeMap
  | .GET => t.getRoot
  | .POST => t.postRoot

/-- Replace the root map of the given method. -/
def withRoot (t : Routes) : Method → NodeMap → Routes
  | .GET, c => ⟨c, t.postRoot⟩
  | .POST, c => ⟨t.getRoot, c⟩

/-- `Bunwork.addRoute(method, path, handler)`: the root pattern `/` is stored
as a fresh node under the literal key `/`; any other pattern is split on `/`
and inserted along `insertGo`. -/
def addRoute (t : Routes) (m : Method) (path : List Char) (h : Nat) : Routes :=
  if path = ['/'] then
    withRoot t m (setC (rootOf t m) ['/'] (RouteNode.mk [] none (some h)))
  else
    withRoot t m (insertGo (rootOf t m) (pathParts path) h)

/-- The matching loop of `matchRoute` over a nonempty segment list: prefer the
literal child, fall back to the `:` child (binding its `paramName` to the
segment text), fail if neither exists; return the node the last segment
landed on together with the accumulated parameters. -/
def matchLoop : NodeMap → Params → Seg → List Seg → Option (RouteNode × Params)
  | current, ps, part, rest =>
    match lookupC current part with
    | some n =>
      match rest with
      | [] => some (n, ps)
      | r :: rs => matchLoop n.children ps r rs
    | none =>
      match lookupC current [':'] with
      | some n =>
        let ps' := match n.paramName with
          | some nm => setParam ps nm part
          | none => ps
        match rest with
        | [] => some (n, ps')
        | r :: rs => matchLoop n.children ps' r rs
      | none => none

/-- The node `matchRoute` lands on after consuming every segment of the
request path, with the extracted parameters; the zero-segment case falls back
to `current.get("/")` exactly as `node ??= current.get("/")` does. -/
def landed (t : Routes) (m : Method) (path : List Char) : Option (RouteNode × Params) :=
  let parts := if path = ['/'] then [] else pathParts path
  match parts with
  | [] => (lookupC (rootOf t m) ['/']).map (fun n => (n, []))
  | p :: rest => matchLoop (rootOf t m) [] p rest

/-- The final `if (node?.handler) return { handler, params }; return null`
step of `matchRoute`. -/
def finishMatch : Option (RouteNode × Params) → Option (Nat × Params)
  | some (n, ps) =>
    match n.handler with
    | some h => some (h, ps)
    | none => none
  | none => none

/-- `Bunwork.matchRoute(method, path)`: succeed with `(handler, params)` only
when the landed node carries a handler. -/
def matchRoute (t : Routes) (m : Method) (path : List Char) : Option (Nat × Params) :=
  finishMatch (landed t m path)

/-- HTTP response abstraction: status code and plain-text body. -/
structure Resp where
  status : Nat
  body : String
deriving DecidableEq, Repr

/-- The fixed blocking response
`new Response("Middleware blocked the request", { status: 403 })`. -/
def blockedResp : Resp := ⟨403, "Middleware blocked the request"⟩

/-- A middleware, abstracted to its identifier and whether it invokes its
continuation `next` (the request/response arguments carry no information the
dispatcher inspects). -/
abbrev Mw := Nat × Bool

/-- Observable events of one `handle` call: a middleware ran, a route handler
was invoked, a static file read was attempted (directory and relative path). -/
inductive Ev where
  | mw (i : Nat)
  | routeRun (h : Nat)
  | fileRead (dir rel : List Char)
deriving DecidableEq, Repr

/-- `runMiddlewares`: execute middlewares in order; the first one that does
not call `next` yields the 403 blocking response and stops the loop. Returns
the trace of executed middlewares and the optional blocking response. -/
def runMiddlewares : List Mw → List Ev × Option Resp
  | [] => ([], none)
  | (i, nextCalled) :: rest =>
    if nextCalled then
      let r := runMiddlewares rest
      (Ev.mw i :: r.1, r.2)
    else ([Ev.mw i], some blockedResp)

/-- `path.startsWith(route)` on character lists: `startsWithL s pre` is true
iff `pre` is a prefix of `s`. -/
def startsWithL : List Char → List Char → Bool
  | _, [] => true
  | [], _ :: _ => false
  | c :: cs, r :: rs => c = r && startsWithL cs rs

/-- The full dispatcher state: middleware list, route tree, and the static
route object (prefix ↦ directory, iterated in insertion order). -/
structure App where
  middlewares : List Mw
  routes : Routes
  staticRoutes : List (List Char × List Char)

/-- `new Bunwork()`. -/
def App.empty : App := ⟨[], createRouteTree, []⟩

/-- `Bunwork.middleware(fn)`. -/
def App.middleware (a : App) (fn : Mw) : App :=
  { a with middlewares := a.middlewares ++ [fn] }

/-- `Bunwork.get(path, handler)`. -/
def App.get (a : App) (path : List Char) (h : Nat) : App :=
  { a with routes := addRoute a.routes Method.GET path h }

/-- `Bunwork.post(path, handler)`. -/
def App.post (a : App) (path : List Char) (h : Nat) : App :=
  { a with routes := addRoute a.routes Method.POST path h }

/-- `Bunwork.static(route, directoryPath)`: JS object assignment. -/
def App.staticRoute (a : App) (route dir : List Char) : App :=
  { a with staticRoutes :=
      if (a.staticRoutes.map Prod.fst).contains route then
        a.staticRoutes.map (fun e => if e.1 = route then (route, dir) else e)
      else a.staticRoutes ++ [(route, dir)] }

/-- The static fallback loop of `handle`: the first registered prefix that
matches the path decides the outcome — 200 with the file bytes on a
successful read, 404 "File Not Found" on a failed read; 404 "Not Found" when
no prefix matches. `readF dir rel` abstracts
`file(join(dir, rel)).arrayBuffer()` with its try/catch. -/
def handleStatic (readF : List Char → List Char → Option String) (path : List Char) :
    List (List Char × List Char) → List Ev × Resp
  | [] => ([], ⟨404, "Not Found"⟩)
  | (pre, dir) :: rest =>
    if startsWithL path pre then
      let rel := path.drop pre.length
      match readF dir rel with
      | some bytes => ([Ev.fileRead dir rel], ⟨200, bytes⟩)
      | none => ([Ev.fileRead dir rel], ⟨404, "File Not Found"⟩)
    else handleStatic readF path rest

/-- `Bunwork.handle(req)`: run the middleware chain (returning its blocking
response when one blocks), otherwise match the route tree and invoke the
matched handler with the extracted parameters, otherwise fall through to the
static loop / 404. Also returns the event trace. -/
def handle (henv : Nat → Params → Resp) (readF : List Char → List Char → Option String)
    (a : App) (m : Method) (path : List Char) : List Ev × Resp :=
  let mwRes := runMiddlewares a.middlewares
  match mwRes.2 with
  | some r => (mwRes.1, r)
  | none =>
    match matchRoute a.routes m path with
    | some hp => (mwRes.1 ++ [Ev.routeRun hp.1], henv hp.1 hp.2)
    | none =>
      let st := handleStatic readF path a.staticRoutes
      (mwRes.1 ++ st.1, st.2)

/-- `class Blueprint`: prefix, per-method route objects (keys are the
already-prefixed paths, in insertion order) and middleware list. The
source field `routes.GET` is `getRoutes`, `routes.POST` is `postRoutes`;
the constructor argument `prefix` is `pfx`. -/
structure Blueprint where
  pfx : List Char
  getRoutes : List (List Char × Nat)
  postRoutes : List (List Char × Nat)
  middlewares : List Mw

/-- `new Blueprint(prefix)`. -/
def Blueprint.new (p : List Char) : Blueprint := ⟨p, [], [], []⟩

/-- JS object assignment `routes[key] = { handler }`: overwrite in place or
append. -/
def objSet : List (List Char × Nat) → List Char → Nat → List (List Char × Nat)
  | [], k, v => [(k, v)]
  | (k', v') :: rest, k, v => if k' = k then (k, v) :: rest else (k', v') :: objSet rest k v

/-- `Blueprint.get(path, handler)`: stores under the key
`` `${this.prefix}${path}` `` — plain string concatenation. -/
def Blueprint.get (bp : Blueprint) (path : List Char) (h : Nat) : Blueprint :=
  { bp with getRoutes := objSet bp.getRoutes (bp.pfx ++ path) h }

/-- `Blueprint.post(path, handler)`. -/
def Blueprint.post (bp : Blueprint) (path : List Char) (h : Nat) : Blueprint :=
  { bp with postRoutes := objSet bp.postRoutes (bp.pfx ++ path) h }

/-- `Blueprint.middleware(fn)`. -/
def Blueprint.middleware (bp : Blueprint) (fn : Mw) : Blueprint :=
  { bp with middlewares := bp.middlewares ++ [fn] }

/-- `Bunwork.registerBlueprint(bp)`: push the blueprint's middlewares onto
the dispatcher's list, then `addRoute` every stored (already prefixed) route,
GET entries first, in stored order. -/
def registerBlueprint (a : App) (bp : Blueprint) : App :=
  { a with
    middlewares := a.middlewares ++ bp.middlewares,
    routes :=
      bp.postRoutes.foldl (fun t r => addRoute t Method.POST r.1 r.2)
        (bp.getRoutes.foldl (fun t r => addRoute t Method.GET r.1 r.2) a.routes) }

/-- A registration record: method, raw path pattern, handler id. `get`,
`post` and `registerBlueprint` all reduce to `addRoute` calls, so any
sequence of them induces one such list. -/
abbrev Reg := Method × List Char × Nat

/-- Fold a sequence of registrations into a route table starting from
`createRouteTree()`. -/
def buildRoutes (regs : List Reg) : Routes :=
  regs.foldl (fun t r => addRoute t r.1 r.2.1 r.2.2) createRouteTree

/-- The node addressed by the key path `k :: pos` below a root map. -/
def lookupNode (c : NodeMap) (k : Seg) : List Seg → Option RouteNode
  | [] => lookupC c k
  | k2 :: rest =>
    match lookupC c k with
    | some n => lookupNode n.children k2 rest
    | none => none

/-- Whether the node at key path `k :: pos` exists and carries a handler. -/
def handlerAt (c : NodeMap) (k : Seg) (pos : List Seg) : Bool :=
  match lookupNode c k pos with
  | some n => n.handler.isSome
  | none => false

/-- The key path at which a registered pattern's terminal node lives: `/` is
stored under the literal root key `/`; any other pattern terminates at its
split segments with each dynamic segment collapsed to the key `":"`. -/
def regKeys (p : List Char) : List Seg :=
  if p = ['/'] then [['/']] else (pathParts p).map keyOf

/-- Some registration of `regs` for method `m` terminates exactly at the key
path `k :: pos`. -/
def regMatches (regs : List Reg) (m : Method) (k : Seg) (pos : List Seg) : Prop :=
  ∃ e ∈ regs, e.1 = m ∧ regKeys e.2.1 = k :: pos

/-- The handler-position invariant: a node carries a handler iff some
registration terminates exactly there. -/
def handlerInv (regs : List Reg) (t : Routes) : Prop :=
  ∀ m k pos, handlerAt (rootOf t m) k pos = true ↔ regMatches regs m k pos

/-- All key lists of the map, and of every node reachable from it, are
duplicate-free (so in particular each children map has at most one `":"`
entry). -/
def keysOK (c : NodeMap) : Prop :=
  (c.map Prod.fst).Nodup ∧
    ∀ k pos n, lookupNode c k pos = some n → (n.children.map Prod.fst).Nodup

end Bunwork

namespace Bunwork

/-- Sanity check: dynamic segment binding on a concrete route. -/
theorem sanity_dynamic_binding :
    matchRoute (addRoute createRouteTree Method.GET "/hello/:name".toList 7)
      Method.GET "/hello/john".toList = some (7, [("name".toList, "john".toList)]) := by
  decide

/-- Sanity check: a strict prefix of the only registered pattern does not match. -/
theorem sanity_prefix_no_match :
    matchRoute (addRoute createRouteTree Method.GET "/hello/:name".toList 7)
      Method.GET "/hello".toList = none := by
  decide

/-- Sanity check: the root route matches the root path. -/
theorem sanity_root_route :
    matchRoute (addRoute createRouteTree Method.GET ['/'] 3) Method.GET ['/'] =
      some (3, []) := by
  decide

/-! ### Basic lemmas about the map operations -/

@[simp]
theorem lookupC_setC (c : NodeMap) (k k' : Seg) (v : RouteNode) :
    lookupC (setC c k v) k' = if k = k' then some v else lookupC c k' := by
  induction c with
  | nil => by_cases h : k = k' <;> simp [setC, lookupC, h]
  | cons e rest ih =>
    obtain ⟨ek, ev⟩ := e
    by_cases h1 : ek = k
    · subst h1
      by_cases h2 : ek = k' <;> simp [setC, lookupC, h2]
    · by_cases h2 : ek = k'
      · subst h2
        have : ¬ k = ek := fun h => h1 h.symm
        simp [setC, lookupC, h1, this]
      · simp [setC, lookupC, h1, h2, ih]

@[simp]
theorem setC_setC (c : NodeMap) (k : Seg) (v1 v2 : RouteNode) :
    setC (setC c k v1) k v2 = setC c k v2 := by
  induction c with
  | nil => simp [setC]
  | cons e rest ih =>
    obtain ⟨ek, ev⟩ := e
    by_cases h : ek = k <;> simp [setC, h, ih]

@[simp]
theorem RouteNode.children_mk (c : NodeMap) (p : Option Seg) (h : Option Nat) :
    (RouteNode.mk c p h).children = c := rfl

@[simp]
theorem RouteNode.paramName_mk (c : NodeMap) (p : Option Seg) (h : Option Nat) :
    (RouteNode.mk c p h).paramName = p := rfl

@[simp]
theorem RouteNode.handler_mk (c : NodeMap) (p : Option Seg) (h : Option Nat) :
    (RouteNode.mk c p h).handler = h := rfl

@[simp]
theorem updParam_children (part : Seg) (n : RouteNode) :
    (updParam part n).children = n.children := by
  cases part with
  | nil => rfl
  | cons c nm =>
    by_cases hc : c = ':' <;> simp [updParam, hc]

@[simp]
theorem updParam_handler (part : Seg) (n : RouteNode) :
    (updParam part n).handler = n.handler := by
  cases part with
  | nil => rfl
  | cons c nm =>
    by_cases hc : c = ':' <;> simp [updParam, hc]

theorem updParam_stable (part : Seg) (x : RouteNode) (ch : NodeMap) (h : Option Nat) :
    updParam part (RouteNode.mk ch (updParam part x).paramName h) =
      RouteNode.mk ch (updParam part x).paramName h := by
  cases part with
  | nil => rfl
  | cons c nm =>
    by_cases hc : c = ':' <;> simp [updParam, hc, RouteNode.paramName_mk]

theorem keyOf_eq_self (s : Seg) (h : s.head? ≠ some ':') : keyOf s = s := by
  cases s with
  | nil => rfl
  | cons c t =>
    have hc : c ≠ ':' := by
      intro hc
      exact h (by simp [hc])
    simp [keyOf, hc]

theorem updParam_eq_self (s : Seg) (h : s.head? ≠ some ':') (n : RouteNode) :
    updParam s n = n := by
  cases s with
  | nil => rfl
  | cons c t =>
    have hc : c ≠ ':' := by
      intro hc
      exact h (by simp [hc])
    simp [updParam, hc]

theorem rootOf_withRoot_same (t : Routes) (m : Method) (c : NodeMap) :
    rootOf (withRoot t m c) m = c := by
  cases m <;> rfl

theorem rootOf_withRoot_other (t : Routes) (m m' : Method) (c : NodeMap) (h : m' ≠ m) :
    rootOf (withRoot t m c) m' = rootOf t m' := by
  cases m <;> cases m' <;> first | rfl | exact absurd rfl h

theorem withRoot_withRoot (t : Routes) (m : Method) (c1 c2 : NodeMap) :
    withRoot (withRoot t m c1) m c2 = withRoot t m c2 := by
  cases m <;> rfl

theorem rootOf_addRoute_root (t : Routes) (m : Method) (h : Nat) :
    rootOf (addRoute t m ['/'] h) m =
      setC (rootOf t m) ['/'] (RouteNode.mk [] none (some h)) := by
  simp [addRoute, rootOf_withRoot_same]

theorem rootOf_addRoute_nonroot (t : Routes) (m : Method) (path : List Char) (h : Nat)
    (hp : path ≠ ['/']) :
    rootOf (addRoute t m path h) m = insertGo (rootOf t m) (pathParts path) h := by
  simp [addRoute, hp, rootOf_withRoot_same]

theorem updParam_colon (nm : Seg) (n : RouteNode) :
    updParam (':' :: nm) n = RouteNode.mk n.children (some nm) n.handler := by
  simp [updParam]

theorem keyOf_colon (nm : Seg) : keyOf (':' :: nm) = [':'] := by
  simp [keyOf]

/-- Registering the same segment list twice: the second insertion fully
overwrites the first (the trie is as if only the second had happened). -/
theorem insertGo_idem : ∀ (parts : List Seg) (c : NodeMap) (h1 h2 : Nat),
    insertGo (insertGo c parts h1) parts h2 = insertGo c parts h2 := by
  intro parts
  induction parts with
  | nil => intro c h1 h2; rfl
  | cons part rest ih =>
    intro c h1 h2
    cases rest with
    | nil =>
      simp only [insertGo, lookupC_setC, eq_self_iff_true, if_true, Option.getD_some,
        updParam_children]
      rw [updParam_stable]
      simp [setC_setC]
    | cons r rs =>
      simp only [insertGo, lookupC_setC, eq_self_iff_true, if_true, Option.getD_some,
        updParam_children, updParam_handler]
      rw [updParam_stable]
      simp [setC_setC, ih]

/-- `landed` depends on the request path only through `pathParts`: the
`path === "/"` special case coincides with the split of `"/"` itself. -/
theorem landed_eq (t : Routes) (m : Method) (path : List Char) :
    landed t m path =
      (match pathParts path with
        | [] => (lookupC (rootOf t m) ['/']).map (fun n => (n, []))
        | p :: rest => matchLoop (rootOf t m) [] p rest) := by
  unfold landed
  by_cases h : path = ['/']
  · subst h
    have hp : pathParts ['/'] = [] := by decide
    simp [hp]
  · simp [h]

theorem matchRoute_parts (t : Routes) (m : Method) (path : List Char) (p : Seg)
    (rest : List Seg) (hp : pathParts path = p :: rest) :
    matchRoute t m path = finishMatch (matchLoop (rootOf t m) [] p rest) := by
  rw [matchRoute, landed_eq, hp]

theorem matchRoute_nil (t : Routes) (m : Method) (path : List Char)
    (hp : pathParts path = []) :
    matchRoute t m path =
      finishMatch ((lookupC (rootOf t m) ['/']).map (fun n => (n, []))) := by
  rw [matchRoute, landed_eq, hp]

theorem pathParts_cons_slash (p : List Char) : pathParts ('/' :: p) = pathParts p := by
  simp [pathParts, pathPartsAux]

theorem pathPartsAux_append_slash : ∀ (p : List Char) (cur : List Char),
    pathPartsAux cur (p ++ ['/']) = pathPartsAux cur p := by
  intro p
  induction p with
  | nil =>
    intro cur
    by_cases h : cur = [] <;> simp [pathPartsAux, h]
  | cons c cs ih =>
    intro cur
    by_cases hc : c = '/'
    · subst hc
      by_cases h : cur = [] <;> simp [pathPartsAux, h, ih]
    · simp [pathPartsAux, hc, ih]

theorem pathParts_append_slash (p : List Char) : pathParts (p ++ ['/']) = pathParts p :=
  pathPartsAux_append_slash p []

/-- The heart of the literal-precedence computation, literal route registered
first: after inserting `[s1, s2]` (both literal) and then `[s1, ':' :: nm]`
into any children map, matching `[s1, s2]` yields the literal handler with no
bindings. -/
theorem insert2_lit_dyn (c : NodeMap) (s1 s2 nm : Seg) (h1 h2 : Nat)
    (hs1 : s1.head? ≠ some ':') (hs2 : s2.head? ≠ some ':') (hne2 : s2 ≠ [':']) :
    finishMatch (matchLoop (insertGo (insertGo c [s1, s2] h1) [s1, ':' :: nm] h2) [] s1 [s2]) =
      some (h1, []) := by
  have hk1 : keyOf s1 = s1 := keyOf_eq_self s1 hs1
  have hk2 : keyOf s2 = s2 := keyOf_eq_self s2 hs2
  have hne2' : ¬ ([':'] = s2) := fun h => hne2 h.symm
  simp [insertGo, matchLoop, finishMatch, hk1, hk2, keyOf_colon,
    updParam_eq_self s1 hs1, updParam_eq_self s2 hs2, updParam_colon, hne2, hne2',
    setC_setC]

/-- Literal precedence with the dynamic route registered first. -/
theorem insert2_dyn_lit (c : NodeMap) (s1 s2 nm : Seg) (h1 h2 : Nat)
    (hs1 : s1.head? ≠ some ':') (hs2 : s2.head? ≠ some ':') (hne2 : s2 ≠ [':']) :
    finishMatch (matchLoop (insertGo (insertGo c [s1, ':' :: nm] h2) [s1, s2] h1) [] s1 [s2]) =
      some (h1, []) := by
  have hk1 : keyOf s1 = s1 := keyOf_eq_self s1 hs1
  have hk2 : keyOf s2 = s2 := keyOf_eq_self s2 hs2
  have hne2' : ¬ ([':'] = s2) := fun h => hne2 h.symm
  simp [insertGo, matchLoop, finishMatch, hk1, hk2, keyOf_colon,
    updParam_eq_self s1 hs1, updParam_eq_self s2 hs2, updParam_colon, hne2, hne2',
    setC_setC]

theorem matchLoop_lit (c : NodeMap) (n : RouteNode) (ps : Params) (s : Seg)
    (rest : List Seg) (h : lookupC c s = some n) :
    matchLoop c ps s rest =
      match rest with
      | [] => some (n, ps)
      | r :: rs => matchLoop n.children ps r rs := by
  rw [matchLoop, h]

theorem matchLoop_dyn (c : NodeMap) (n : RouteNode) (ps : Params) (s : Seg)
    (rest : List Seg) (h1 : lookupC c s = none) (h2 : lookupC c [':'] = some n) :
    matchLoop c ps s rest =
      (let ps' := match n.paramName with
        | some nm => setParam ps nm s
        | none => ps
      match rest with
      | [] => some (n, ps')
      | r :: rs => matchLoop n.children ps' r rs) := by
  rw [matchLoop, h1, h2]

theorem pathPartsAux_no_slash : ∀ (s : List Char) (cur rest : List Char), '/' ∉ s →
    pathPartsAux cur (s ++ rest) = pathPartsAux (s.reverse ++ cur) rest := by
  intro s
  induction s with
  | nil => intro cur rest _; simp
  | cons c cs ih =>
    intro cur rest h
    have hc : ¬ (c = '/') := fun hh => h (by rw [hh]; exact List.mem_cons_self _ _)
    have hcs : '/' ∉ cs := fun hh => h (List.mem_cons_of_mem _ hh)
    simp [pathPartsAux, hc, ih _ _ hcs]

/-! ### Claim theorems: matching -/

/-- C1: at every trie position, a literal child whose key equals the request
segment is taken in preference to anything else (in particular the dynamic
child is ignored); consequently, with both `/users/me` and `/users/:id`
registered for GET — in either order, on top of any pre-existing route
table — a GET request for `/users/me` returns the handler registered under
the literal pattern, with no parameter bindings, never the dynamic one's. -/
theorem c1_static_over_dynamic :
    (∀ (c : NodeMap) (n : RouteNode) (ps : Params) (s : Seg) (rest : List Seg),
        lookupC c s = some n →
        matchLoop c ps s rest =
          match rest with
          | [] => some (n, ps)
          | r :: rs => matchLoop n.children ps r rs)
    ∧ (∀ (t : Routes) (h1 h2 : Nat),
        matchRoute (addRoute (addRoute t Method.GET "/users/me".toList h1)
            Method.GET "/users/:id".toList h2) Method.GET "/users/me".toList =
          some (h1, []))
    ∧ (∀ (t : Routes) (h1 h2 : Nat),
        matchRoute (addRoute (addRoute t Method.GET "/users/:id".toList h2)
            Method.GET "/users/me".toList h1) Method.GET "/users/me".toList =
          some (h1, [])) := by
  refine ⟨?_, ?_, ?_⟩
  · intro c n ps s rest h
    rw [matchLoop, h]
  · intro t h1 h2
    have hme : ("/users/me".toList : List Char) ≠ ['/'] := by decide
    have hid : ("/users/:id".toList : List Char) ≠ ['/'] := by decide
    have hpme : pathParts "/users/me".toList = ["users".toList, "me".toList] := by decide
    have hpid : pathParts "/users/:id".toList = ["users".toList, ':' :: "id".toList] := by
      decide
    rw [matchRoute_parts _ _ _ _ _ hpme, rootOf_addRoute_nonroot _ _ _ _ hid,
      rootOf_addRoute_nonroot _ _ _ _ hme, hpme, hpid]
    exact insert2_lit_dyn _ _ _ _ _ _ (by decide) (by decide) (by decide)
  · intro t h1 h2
    have hme : ("/users/me".toList : List Char) ≠ ['/'] := by decide
    have hid : ("/users/:id".toList : List Char) ≠ ['/'] := by decide
    have hpme : pathParts "/users/me".toList = ["users".toList, "me".toList] := by decide
    have hpid : pathParts "/users/:id".toList = ["users".toList, ':' :: "id".toList] := by
      decide
    rw [matchRoute_parts _ _ _ _ _ hpme, rootOf_addRoute_nonroot _ _ _ _ hme,
      rootOf_addRoute_nonroot _ _ _ _ hid, hpme, hpid]
    exact insert2_dyn_lit _ _ _ _ _ _ (by decide) (by decide) (by decide)

/-- Witness for C1: the literal-precedence step evaluated at a concrete
one-entry children map. -/
theorem c1_static_over_dynamic_witness :
    matchLoop [(['m'], newNode)] [] ['m'] [] = some (newNode, []) :=
  c1_static_over_dynamic.1 [(['m'], newNode)] newNode [] ['m'] [] rfl

/-- C5: registering a second handler at the identical method+pattern leaves
the route table exactly as if only the second registration had happened
(later replaces earlier, everything else unchanged); concretely the
re-registered pattern then matches the second handler. -/
theorem c5_last_registration_wins :
    (∀ (t : Routes) (m : Method) (p : List Char) (h1 h2 : Nat),
        addRoute (addRoute t m p h1) m p h2 = addRoute t m p h2)
    ∧ matchRoute (addRoute (addRoute createRouteTree Method.GET "/a/b".toList 1)
        Method.GET "/a/b".toList 2) Method.GET "/a/b".toList = some (2, []) := by
  constructor
  · intro t m p h1 h2
    by_cases hp : p = ['/']
    · subst hp
      simp [addRoute, rootOf_withRoot_same, withRoot_withRoot, setC_setC]
    · simp [addRoute, hp, rootOf_withRoot_same, withRoot_withRoot, insertGo_idem]
  · decide

/-- C8: `matchRoute` is insensitive to leading and trailing slashes (and the
empty path agrees with the root path `/`), and the root path is the
zero-segment case, matched by the terminal node registered at `/`. -/
theorem c8_slash_insensitive :
    (∀ (t : Routes) (m : Method) (p : List Char),
        matchRoute t m ('/' :: p) = matchRoute t m p)
    ∧ (∀ (t : Routes) (m : Method) (p : List Char),
        matchRoute t m (p ++ ['/']) = matchRoute t m p)
    ∧ (∀ (t : Routes) (m : Method), matchRoute t m [] = matchRoute t m ['/'])
    ∧ (∀ (t : Routes) (h : Nat),
        matchRoute (addRoute t Method.GET ['/'] h) Method.GET ['/'] = some (h, [])) := by
  refine ⟨?_, ?_, ?_, ?_⟩
  · intro t m p
    rw [matchRoute, matchRoute, landed_eq, landed_eq, pathParts_cons_slash]
  · intro t m p
    rw [matchRoute, matchRoute, landed_eq, landed_eq, pathParts_append_slash]
  · intro t m
    rw [matchRoute, matchRoute, landed_eq, landed_eq]
    have h1 : pathParts ([] : List Char) = [] := by decide
    have h2 : pathParts ['/'] = [] := by decide
    rw [h1, h2]
  · intro t h
    have h2 : pathParts ['/'] = [] := by decide
    rw [matchRoute_nil _ _ _ h2, rootOf_addRoute_root]
    simp [finishMatch]

/-- C3: a match succeeds only when the node landed on after consuming every
segment of the request path carries a handler: whenever `matchRoute` returns
`(h, ps)`, the landed node exists and its handler is `h`. Concretely, with
only GET `/hello/:name` registered, GET `/hello/john` matches with
`name = "john"`, while the strict prefix GET `/hello` lands on an
intermediate node with no handler and returns no match (dispatch then falls
through to 404). -/
theorem c3_prefix_no_match :
    (∀ (t : Routes) (m : Method) (path : List Char) (h : Nat) (ps : Params),
        matchRoute t m path = some (h, ps) →
        ∃ n, landed t m path = some (n, ps) ∧ n.handler = some h)
    ∧ matchRoute (addRoute createRouteTree Method.GET "/hello/:name".toList 7)
        Method.GET "/hello/john".toList = some (7, [("name".toList, "john".toList)])
    ∧ matchRoute (addRoute createRouteTree Method.GET "/hello/:name".toList 7)
        Method.GET "/hello".toList = none := by
  refine ⟨?_, by decide, by decide⟩
  intro t m path h ps hm
  rw [matchRoute] at hm
  cases hl : landed t m path with
  | none => rw [hl] at hm; simp [finishMatch] at hm
  | some np =>
    obtain ⟨n, ps'⟩ := np
    rw [hl] at hm
    cases hh : n.handler with
    | none => simp [finishMatch, hh] at hm
    | some h' =>
      simp only [finishMatch, hh, Option.some.injEq, Prod.mk.injEq] at hm
      obtain ⟨hm1, hm2⟩ := hm
      subst hm1
      subst hm2
      exact ⟨n, rfl, hh⟩

/-- Witness for C3: the landed-node characterization applied to the matched
concrete scenario of the claim. -/
theorem c3_prefix_no_match_witness :
    ∃ n, landed (addRoute createRouteTree Method.GET "/hello/:name".toList 7)
        Method.GET "/hello/john".toList =
        some (n, [("name".toList, "john".toList)]) ∧ n.handler = some 7 :=
  c3_prefix_no_match.1 _ _ _ 7 _ c3_prefix_no_match.2.1

/-- Counterexample to C4 as stated: with only GET `/a/:name/b` registered,
the request segment `s = ":"` is matched by the `Map.has(part)` literal test
(the dynamic child is stored under the literal key `":"`), so the match
succeeds but records no parameter binding: the returned params map is empty
rather than binding `name` to `":"`. -/
theorem c4_counterexample :
    matchRoute (addRoute createRouteTree Method.GET "/a/:name/b".toList 7)
      Method.GET "/a/:/b".toList = some (7, [])
    ∧ ([] : Params) ≠ [("name".toList, ":".toList)] :=
  ⟨by decide, by decide⟩

/-- C4 (amended): for a registered dynamic route `/a/:name/b` and every
non-empty request segment `s` that contains no `/` and is not the one-character
segment `":"`, a request for `/a/` ++ s ++ `/b` matches and binds `name` to
exactly the literal text `s` (no validation or coercion of `s`). -/
theorem c4_dynamic_binding (h : Nat) (s : Seg)
    (hne : s ≠ []) (hns : '/' ∉ s) (hnc : s ≠ [':']) :
    matchRoute (addRoute createRouteTree Method.GET "/a/:name/b".toList h)
      Method.GET ("/a/".toList ++ s ++ "/b".toList) =
      some (h, [("name".toList, s)]) := by
  have hparts : pathParts ("/a/".toList ++ s ++ "/b".toList) = [['a'], s, ['b']] := by
    unfold pathParts
    rw [show ("/a/".toList ++ s ++ "/b".toList : List Char)
        = '/' :: 'a' :: '/' :: (s ++ ['/', 'b']) from by simp]
    rw [show pathPartsAux [] ('/' :: 'a' :: '/' :: (s ++ ['/', 'b']))
        = ['a'] :: pathPartsAux [] (s ++ ['/', 'b']) from by simp [pathPartsAux]]
    rw [pathPartsAux_no_slash s [] _ hns]
    have hrne : s.reverse ≠ [] := by simpa using hne
    simp [pathPartsAux, hrne]
  have hpat : ("/a/:name/b".toList : List Char) ≠ ['/'] := by decide
  have hppat : pathParts "/a/:name/b".toList = [['a'], ':' :: "name".toList, ['b']] := by
    decide
  rw [matchRoute_parts _ _ _ _ _ hparts, rootOf_addRoute_nonroot _ _ _ _ hpat, hppat]
  have hcs : ¬ ([':'] = s) := fun hh => hnc hh.symm
  simp [insertGo, matchLoop, finishMatch, lookupC, setC, keyOf, updParam, setParam,
    hcs, hnc, createRouteTree, rootOf]

/-- Witness for C4 (amended): segment `xyz` binds `name ↦ "xyz"`. -/
theorem c4_dynamic_binding_witness :
    matchRoute (addRoute createRouteTree Method.GET "/a/:name/b".toList 7)
      Method.GET ("/a/".toList ++ "xyz".toList ++ "/b".toList) =
      some (7, [("name".toList, "xyz".toList)]) :=
  c4_dynamic_binding 7 "xyz".toList (by decide) (by decide) (by decide)

/-! ### Lemmas about the dispatch pipeline -/

theorem runMiddlewares_pass (l : List Mw) (h : ∀ e ∈ l, e.2 = true) :
    runMiddlewares l = (l.map (fun e => Ev.mw e.1), none) := by
  induction l with
  | nil => rfl
  | cons e es ih =>
    obtain ⟨i, b⟩ := e
    have hb : b = true := h (i, b) (List.mem_cons_self _ _)
    subst hb
    simp [runMiddlewares, ih (fun x hx => h x (List.mem_cons_of_mem _ hx))]

theorem runMiddlewares_block (pre : List Mw) (i : Nat) (post : List Mw)
    (h : ∀ e ∈ pre, e.2 = true) :
    runMiddlewares (pre ++ (i, false) :: post) =
      (pre.map (fun e => Ev.mw e.1) ++ [Ev.mw i], some blockedResp) := by
  induction pre with
  | nil => simp [runMiddlewares]
  | cons e es ih =>
    obtain ⟨j, b⟩ := e
    have hb : b = true := h (j, b) (List.mem_cons_self _ _)
    subst hb
    simp [runMiddlewares, ih (fun x hx => h x (List.mem_cons_of_mem _ hx))]

theorem handleStatic_skip (readF : List Char → List Char → Option String)
    (path : List Char) (l : List (List Char × List Char))
    (h : ∀ e ∈ l, startsWithL path e.1 = false) :
    handleStatic readF path l = ([], ⟨404, "Not Found"⟩) := by
  induction l with
  | nil => rfl
  | cons e es ih =>
    obtain ⟨p, d⟩ := e
    have hp : startsWithL path p = false := h (p, d) (List.mem_cons_self _ _)
    simp [handleStatic, hp, ih (fun x hx => h x (List.mem_cons_of_mem _ hx))]

theorem handleStatic_first (readF : List Char → List Char → Option String)
    (path : List Char) (pre : List (List Char × List Char)) (p d : List Char)
    (post : List (List Char × List Char))
    (hpre : ∀ e ∈ pre, startsWithL path e.1 = false)
    (hp : startsWithL path p = true) :
    handleStatic readF path (pre ++ (p, d) :: post) =
      ([Ev.fileRead d (path.drop p.length)],
        match readF d (path.drop p.length) with
        | some bytes => ⟨200, bytes⟩
        | none => ⟨404, "File Not Found"⟩) := by
  induction pre with
  | nil =>
    simp only [List.nil_append, handleStatic, hp, if_true]
    cases readF d (path.drop p.length) <;> rfl
  | cons e es ih =>
    obtain ⟨q, d'⟩ := e
    have hq : startsWithL path q = false := hpre (q, d') (List.mem_cons_self _ _)
    simp [handleStatic, hq, ih (fun x hx => hpre x (List.mem_cons_of_mem _ hx))]

/-! ### Claim theorems: dispatch pipeline -/

/-- C2: when the middleware chain is `pre ++ [mᵢ] ++ post` with every
middleware of `pre` calling `next` and `mᵢ` never calling it, `handle`
returns the fixed 403 blocking response, the executed events are exactly the
middlewares of `pre` in registration order followed by `mᵢ` — so no later
middleware, no route handler and no static-file read is ever invoked. -/
theorem c2_middleware_blocks (henv : Nat → Params → Resp)
    (readF : List Char → List Char → Option String) (a : App) (m : Method)
    (path : List Char) (pre : List Mw) (i : Nat) (post : List Mw)
    (hchain : a.middlewares = pre ++ (i, false) :: post)
    (hpre : ∀ e ∈ pre, e.2 = true) :
    handle henv readF a m path = (pre.map (fun e => Ev.mw e.1) ++ [Ev.mw i], blockedResp)
    ∧ blockedResp.status = 403
    ∧ blockedResp.body = "Middleware blocked the request" := by
  refine ⟨?_, rfl, rfl⟩
  rw [handle, hchain, runMiddlewares_block _ _ _ hpre]

/-- Witness for C2: a three-middleware chain whose second member blocks. -/
theorem c2_middleware_blocks_witness :
    handle (fun _ _ => ⟨200, "ok"⟩) (fun _ _ => none)
      ⟨[(0, true), (1, false), (2, true)], createRouteTree, []⟩ Method.GET "/x".toList =
      ([Ev.mw 0, Ev.mw 1], blockedResp)
    ∧ blockedResp.status = 403
    ∧ blockedResp.body = "Middleware blocked the request" :=
  c2_middleware_blocks _ _ _ _ _ [(0, true)] 1 [(2, true)] rfl (by decide)

/-- C7: with a passing middleware chain, a request matching no route and no
static prefix yields exactly 404 "Not Found"; a request matching no route
whose first matching static prefix read fails (for whatever reason `readF`
collapses to `none`) yields exactly 404 "File Not Found". -/
theorem c7_not_found_bodies :
    (∀ (henv : Nat → Params → Resp) (readF : List Char → List Char → Option String)
        (a : App) (m : Method) (path : List Char),
        (∀ e ∈ a.middlewares, e.2 = true) →
        matchRoute a.routes m path = none →
        (∀ e ∈ a.staticRoutes, startsWithL path e.1 = false) →
        (handle henv readF a m path).2 = ⟨404, "Not Found"⟩)
    ∧ (∀ (henv : Nat → Params → Resp) (readF : List Char → List Char → Option String)
        (a : App) (m : Method) (path : List Char) (pre : List (List Char × List Char))
        (p d : List Char) (post : List (List Char × List Char)),
        (∀ e ∈ a.middlewares, e.2 = true) →
        matchRoute a.routes m path = none →
        a.staticRoutes = pre ++ (p, d) :: post →
        (∀ e ∈ pre, startsWithL path e.1 = false) →
        startsWithL path p = true →
        readF d (path.drop p.length) = none →
        (handle henv readF a m path).2 = ⟨404, "File Not Found"⟩) := by
  constructor
  · intro henv readF a m path hmw hroute hstat
    rw [handle, runMiddlewares_pass _ hmw]
    simp only [hroute]
    rw [handleStatic_skip _ _ _ hstat]
  · intro henv readF a m path pre p d post hmw hroute hstat hpre hp hread
    rw [handle, runMiddlewares_pass _ hmw]
    simp only [hroute]
    rw [hstat, handleStatic_first _ _ _ _ _ _ hpre hp, hread]

/-- Witness for C7: an empty app 404s with "Not Found"; an app with one
matching static prefix and a failing read 404s with "File Not Found". -/
theorem c7_not_found_bodies_witness :
    (handle (fun _ _ => ⟨200, "ok"⟩) (fun _ _ => none)
      ⟨[], createRouteTree, []⟩ Method.GET "/nope".toList).2 = ⟨404, "Not Found"⟩
    ∧ (handle (fun _ _ => ⟨200, "ok"⟩) (fun _ _ => none)
      ⟨[], createRouteTree, [("/pub".toList, "/srv".toList)]⟩ Method.GET
        "/pub/x".toList).2 = ⟨404, "File Not Found"⟩ :=
  ⟨c7_not_found_bodies.1 _ _ _ _ _ (by simp) (by decide) (by decide),
   c7_not_found_bodies.2 _ _ _ _ _ [] "/pub".toList "/srv".toList []
     (by simp) (by decide) rfl (by simp) (by decide) rfl⟩

/-- C10: for a request matching no route (middlewares passing), the first
registered static pair whose prefix starts the request path fully decides the
outcome — 200 with the read bytes or 404 "File Not Found" depending only on
that pair's read — and the event trace shows exactly one file read, at that
pair's directory: no later static route is ever consulted. -/
theorem c10_first_static_decides (henv : Nat → Params → Resp)
    (readF : List Char → List Char → Option String) (a : App) (m : Method)
    (path : List Char) (pre : List (List Char × List Char)) (p d : List Char)
    (post : List (List Char × List Char))
    (hmw : ∀ e ∈ a.middlewares, e.2 = true)
    (hroute : matchRoute a.routes m path = none)
    (hstat : a.staticRoutes = pre ++ (p, d) :: post)
    (hpre : ∀ e ∈ pre, startsWithL path e.1 = false)
    (hp : startsWithL path p = true) :
    handle henv readF a m path =
      (a.middlewares.map (fun e => Ev.mw e.1) ++ [Ev.fileRead d (path.drop p.length)],
        match readF d (path.drop p.length) with
        | some bytes => ⟨200, bytes⟩
        | none => ⟨404, "File Not Found"⟩) := by
  rw [handle, runMiddlewares_pass _ hmw]
  simp only [hroute]
  rw [hstat, handleStatic_first _ _ _ _ _ _ hpre hp]

/-- Witness for C10: two static routes share the prefix of the request; the
first one (whose read fails) decides, the second (whose read would succeed)
is never consulted. -/
theorem c10_first_static_decides_witness :
    handle (fun _ _ => ⟨200, "ok"⟩)
      (fun dir _ => if dir = "/first".toList then none else some "bytes")
      ⟨[], createRouteTree,
        [("/pub".toList, "/first".toList), ("/pub".toList, "/second".toList)]⟩
      Method.GET "/pub/x".toList =
      ([Ev.fileRead "/first".toList "/x".toList], ⟨404, "File Not Found"⟩) :=
  c10_first_static_decides _ _ _ _ _ [] "/pub".toList "/first".toList
    [("/pub".toList, "/second".toList)] (by simp) (by decide) rfl (by simp) (by decide)

/-- C6: registering a blueprint appends its middlewares after all previously
registered dispatcher middlewares preserving their order; a blueprint route
is stored under the plain string concatenation `prefix ++ path` with no slash
normalization; consequently a blueprint with prefix `/users` and internal
route `/:id` yields a dispatcher route matched by GET `/users/5` with
`id = "5"` — and not by the bare prefix `/users`. -/
theorem c6_blueprint_merge :
    (∀ (a : App) (bp : Blueprint),
        (registerBlueprint a bp).middlewares = a.middlewares ++ bp.middlewares)
    ∧ (∀ (P path : List Char) (h : Nat),
        (Blueprint.get (Blueprint.new P) path h).getRoutes = [(P ++ path, h)])
    ∧ (∀ h : Nat,
        matchRoute (registerBlueprint App.empty
            (Blueprint.get (Blueprint.new "/users".toList) "/:id".toList h)).routes
          Method.GET "/users/5".toList = some (h, [("id".toList, "5".toList)]))
    ∧ (∀ h : Nat,
        matchRoute (registerBlueprint App.empty
            (Blueprint.get (Blueprint.new "/users".toList) "/:id".toList h)).routes
          Method.GET "/users".toList = none) := by
  refine ⟨fun a bp => rfl, ?_, fun h => rfl, fun h => rfl⟩
  intro P path h
  simp [Blueprint.get, Blueprint.new, objSet]

/-! ### Lemmas for the trie invariants (C9) -/

theorem lookupNode_setC_ne (c : NodeMap) (key : Seg) (v : RouteNode) (k : Seg)
    (pos : List Seg) (h : k ≠ key) :
    lookupNode (setC c key v) k pos = lookupNode c k pos := by
  have h' : ¬ (key = k) := fun hh => h hh.symm
  cases pos <;> simp [lookupNode, lookupC_setC, h']

theorem lookupNode_setC_self (c : NodeMap) (key : Seg) (v : RouteNode)
    (pos : List Seg) :
    lookupNode (setC c key v) key pos =
      (match pos with
        | [] => some v
        | k2 :: rest => lookupNode v.children k2 rest) := by
  cases pos <;> simp [lookupNode, lookupC_setC]

theorem handlerAt_children (c : NodeMap) (key : Seg) (x0 : RouteNode)
    (hx : lookupC c key = some x0) (q : Seg) (qs : List Seg) :
    handlerAt c key (q :: qs) = handlerAt x0.children q qs := by
  simp [handlerAt, lookupNode, hx]

theorem handlerAt_nil_none (k : Seg) (pos : List Seg) :
    handlerAt ([] : NodeMap) k pos = false := by
  cases pos <;> simp [handlerAt, lookupNode, lookupC]

/-- Where `insertGo` puts handlers: exactly at the key path of the inserted
segments; every other position is untouched. -/
theorem handlerAt_insertGo : ∀ (parts : List Seg) (c : NodeMap) (h : Nat) (k : Seg)
    (pos : List Seg),
    handlerAt (insertGo c parts h) k pos =
      (if k :: pos = parts.map keyOf then true else handlerAt c k pos) := by
  intro parts
  induction parts with
  | nil =>
    intro c h k pos
    simp [insertGo]
  | cons part rest ih =>
    intro c h k pos
    by_cases hk : k = keyOf part
    · subst hk
      cases rest with
      | nil =>
        cases pos with
        | nil =>
          simp [insertGo, handlerAt, lookupNode_setC_self]
        | cons q qs =>
          have hcond : ¬ (keyOf part :: q :: qs = List.map keyOf [part]) := by simp
          rw [if_neg hcond]
          simp only [insertGo]
          rw [show handlerAt
              (setC c (keyOf part)
                (RouteNode.mk (updParam part ((lookupC c (keyOf part)).getD newNode)).children
                  (updParam part ((lookupC c (keyOf part)).getD newNode)).paramName (some h)))
              (keyOf part) (q :: qs)
            = handlerAt (updParam part ((lookupC c (keyOf part)).getD newNode)).children q qs from by
            simp [handlerAt, lookupNode_setC_self]]
          rw [updParam_children]
          cases hx : lookupC c (keyOf part) with
          | some x0 => rw [handlerAt_children c _ x0 hx]; simp
          | none =>
            simp only [Option.getD_none, newNode]
            rw [show (RouteNode.mk [] none none : RouteNode).children = [] from rfl,
              handlerAt_nil_none]
            simp [handlerAt, lookupNode, hx]
      | cons r rs =>
        cases pos with
        | nil =>
          have hcond : ¬ ([keyOf part] = List.map keyOf (part :: r :: rs)) := by simp
          rw [if_neg hcond]
          simp only [insertGo]
          rw [show ∀ V : RouteNode, handlerAt (setC c (keyOf part) V) (keyOf part) []
              = V.handler.isSome from fun V => by simp [handlerAt, lookupNode_setC_self]]
          rw [RouteNode.handler_mk, updParam_handler]
          cases hx : lookupC c (keyOf part) with
          | some x0 => simp [handlerAt, lookupNode, hx]
          | none => simp [handlerAt, lookupNode, hx, newNode]
        | cons q qs =>
          simp only [insertGo]
          rw [show ∀ V : RouteNode, handlerAt (setC c (keyOf part) V) (keyOf part) (q :: qs)
              = handlerAt V.children q qs from fun V => by
            simp [handlerAt, lookupNode_setC_self]]
          rw [RouteNode.children_mk, ih]
          by_cases hcond : q :: qs = List.map keyOf (r :: rs)
          · have hcond2 : keyOf part :: q :: qs = List.map keyOf (part :: r :: rs) := by
              rw [List.map_cons, hcond]
            rw [if_pos hcond, if_pos hcond2]
          · have hcond2 : ¬ (keyOf part :: q :: qs = List.map keyOf (part :: r :: rs)) := by
              intro hh
              rw [List.map_cons] at hh
              injection hh with h1 h2
              exact hcond h2
            rw [if_neg hcond, if_neg hcond2, updParam_children]
            cases hx : lookupC c (keyOf part) with
            | some x0 => rw [handlerAt_children c _ x0 hx]; simp
            | none =>
              simp only [Option.getD_none, newNode]
              rw [show (RouteNode.mk [] none none : RouteNode).children = [] from rfl,
                handlerAt_nil_none]
              simp [handlerAt, lookupNode, hx]
    · have hcond : ¬ (k :: pos = List.map keyOf (part :: rest)) := by
        intro hh
        rw [List.map_cons] at hh
        injection hh with h1 h2
        exact hk h1
      rw [if_neg hcond]
      cases rest with
      | nil =>
        simp only [insertGo]
        simp [handlerAt, lookupNode_setC_ne _ _ _ _ _ hk]
      | cons r rs =>
        simp only [insertGo]
        simp [handlerAt, lookupNode_setC_ne _ _ _ _ _ hk]

theorem lookupNode_nil (k : Seg) (pos : List Seg) :
    lookupNode ([] : NodeMap) k pos = none := by
  cases pos <;> simp [lookupNode, lookupC]

theorem pathPartsAux_mem : ∀ (s cur : List Char), '/' ∉ cur →
    ∀ seg ∈ pathPartsAux cur s, seg ≠ [] ∧ '/' ∉ seg := by
  intro s
  induction s with
  | nil =>
    intro cur hcur seg hseg
    by_cases h : cur = []
    · simp [pathPartsAux, h] at hseg
    · simp [pathPartsAux, h] at hseg
      subst hseg
      exact ⟨by simpa using h, by simpa using hcur⟩
  | cons c cs ih =>
    intro cur hcur seg hseg
    by_cases hc : c = '/'
    · subst hc
      by_cases h : cur = []
      · simp [pathPartsAux, h] at hseg
        exact ih [] (by simp) seg hseg
      · simp [pathPartsAux, h] at hseg
        rcases hseg with hseg | hseg
        · subst hseg
          exact ⟨by simpa using h, by simpa using hcur⟩
        · exact ih [] (by simp) seg hseg
    · simp [pathPartsAux, hc] at hseg
      have hcur2 : '/' ∉ c :: cur := by
        intro hmem
        rcases List.mem_cons.mp hmem with h1 | h1
        · exact hc h1.symm
        · exact hcur h1
      exact ih (c :: cur) hcur2 seg hseg

theorem pathParts_mem (p : List Char) (seg : Seg) (h : seg ∈ pathParts p) :
    seg ≠ [] ∧ '/' ∉ seg :=
  pathPartsAux_mem p [] (by simp) seg h

theorem keyOf_ne_slash (part : Seg) (h1 : part ≠ []) (h2 : '/' ∉ part) :
    keyOf part ≠ ['/'] := by
  cases part with
  | nil => exact absurd rfl h1
  | cons c t =>
    by_cases hc : c = ':'
    · simp [keyOf, hc]
    · simp only [keyOf, if_neg hc]
      intro hh
      injection hh with hx hy
      exact h2 (by rw [hx]; exact List.mem_cons_self _ _)

theorem regKeys_ne_slash_cons (p : List Char) (q : Seg) (qs : List Seg) :
    regKeys p ≠ ['/'] :: q :: qs := by
  unfold regKeys
  split
  · simp
  · intro hh
    cases hp : pathParts p with
    | nil => rw [hp] at hh; simp at hh
    | cons a rest =>
      rw [hp, List.map_cons] at hh
      injection hh with h1 h2
      have hm := pathParts_mem p a (by rw [hp]; exact List.mem_cons_self _ _)
      exact keyOf_ne_slash a hm.1 hm.2 h1

theorem rootOf_addRoute_other (t : Routes) (m : Method) (p : List Char) (h : Nat)
    (m' : Method) (hm : m' ≠ m) :
    rootOf (addRoute t m p h) m' = rootOf t m' := by
  unfold addRoute
  split <;> exact rootOf_withRoot_other _ _ _ _ hm

theorem regMatches_append_single (regs : List Reg) (e : Reg) (m : Method) (k : Seg)
    (pos : List Seg) :
    regMatches (regs ++ [e]) m k pos ↔
      regMatches regs m k pos ∨ (e.1 = m ∧ regKeys e.2.1 = k :: pos) := by
  unfold regMatches
  constructor
  · rintro ⟨x, hx, h1, h2⟩
    rcases List.mem_append.mp hx with hx | hx
    · exact Or.inl ⟨x, hx, h1, h2⟩
    · rw [List.mem_singleton.mp hx] at h1 h2
      exact Or.inr ⟨h1, h2⟩
  · rintro (⟨x, hx, h1, h2⟩ | ⟨h1, h2⟩)
    · exact ⟨x, List.mem_append.mpr (Or.inl hx), h1, h2⟩
    · exact ⟨e, List.mem_append.mpr (Or.inr (List.mem_singleton.mpr rfl)), h1, h2⟩

/-- One `addRoute` call extends the handler-position invariant by its own
terminal key path. -/
theorem handlerInv_addRoute (regs : List Reg) (t : Routes) (hInv : handlerInv regs t)
    (m : Method) (p : List Char) (h : Nat) :
    handlerInv (regs ++ [(m, p, h)]) (addRoute t m p h) := by
  intro m' k pos
  rw [regMatches_append_single]
  by_cases hm : m' = m
  · subst hm
    by_cases hp : p = ['/']
    · subst hp
      rw [rootOf_addRoute_root]
      by_cases hk : k = ['/']
      · subst hk
        cases pos with
        | nil =>
          have hl : handlerAt (setC (rootOf t m') ['/']
              (RouteNode.mk [] none (some h))) ['/'] [] = true := by
            simp [handlerAt, lookupNode_setC_self]
          rw [hl]
          exact iff_of_true rfl (Or.inr ⟨rfl, by simp [regKeys]⟩)
        | cons q qs =>
          have hl : handlerAt (setC (rootOf t m') ['/']
              (RouteNode.mk [] none (some h))) ['/'] (q :: qs) = false := by
            simp [handlerAt, lookupNode_setC_self, lookupNode_nil]
          rw [hl]
          constructor
          · intro hh; exact absurd hh (by decide)
          · rintro (⟨x, _, _, hx2⟩ | ⟨_, h2⟩)
            · exact absurd hx2 (regKeys_ne_slash_cons _ _ _)
            · exact absurd h2 (regKeys_ne_slash_cons _ _ _)
      · rw [show handlerAt (setC (rootOf t m') ['/'] (RouteNode.mk [] none (some h))) k pos
            = handlerAt (rootOf t m') k pos from by
          simp [handlerAt, lookupNode_setC_ne _ _ _ _ _ hk]]
        rw [hInv m' k pos]
        constructor
        · exact Or.inl
        · rintro (hh | ⟨_, h2⟩)
          · exact hh
          · rw [regKeys] at h2
            simp only [if_pos rfl] at h2
            injection h2 with h2a h2b
            exact absurd h2a.symm hk
    · rw [rootOf_addRoute_nonroot _ _ _ _ hp, handlerAt_insertGo]
      have hreg : regKeys p = (pathParts p).map keyOf := by rw [regKeys, if_neg hp]
      by_cases hcond : k :: pos = (pathParts p).map keyOf
      · rw [if_pos hcond]
        exact iff_of_true rfl (Or.inr ⟨rfl, by rw [hreg, hcond]⟩)
      · rw [if_neg hcond, hInv m' k pos]
        constructor
        · exact Or.inl
        · rintro (hh | ⟨_, h2⟩)
          · exact hh
          · rw [hreg] at h2
            exact absurd h2.symm hcond
  · rw [rootOf_addRoute_other _ _ _ _ _ hm, hInv m' k pos]
    constructor
    · exact Or.inl
    · rintro (hh | ⟨h1, h2⟩)
      · exact hh
      · exact absurd h1.symm hm

theorem handlerInv_nil : handlerInv [] createRouteTree := by
  intro m k pos
  have hr : rootOf createRouteTree m = [] := by cases m <;> rfl
  rw [hr, show handlerAt ([] : NodeMap) k pos = false from by
    simp [handlerAt, lookupNode_nil]]
  constructor
  · intro hh; exact absurd hh (by decide)
  · rintro ⟨x, hx, _, _⟩; exact absurd hx (List.not_mem_nil x)

theorem handlerInv_build : ∀ (rs : List Reg) (t : Routes) (regs0 : List Reg),
    handlerInv regs0 t →
    handlerInv (regs0 ++ rs) (rs.foldl (fun t r => addRoute t r.1 r.2.1 r.2.2) t) := by
  intro rs
  induction rs with
  | nil => intro t regs0 h; simpa using h
  | cons r rs' ih =>
    intro t regs0 h
    have h3 := ih (addRoute t r.1 r.2.1 r.2.2) (regs0 ++ [r])
      (handlerInv_addRoute regs0 t h r.1 r.2.1 r.2.2)
    rw [show regs0 ++ r :: rs' = (regs0 ++ [r]) ++ rs' from by simp]
    exact h3

theorem setC_map_fst (c : NodeMap) (k : Seg) (v : RouteNode) :
    (setC c k v).map Prod.fst =
      if k ∈ c.map Prod.fst then c.map Prod.fst else c.map Prod.fst ++ [k] := by
  induction c with
  | nil =>
    rw [List.map_nil, if_neg (List.not_mem_nil k)]
    rfl
  | cons e rest ih =>
    obtain ⟨ek, ev⟩ := e
    rw [List.map_cons]
    by_cases h : ek = k
    · subst h
      rw [if_pos (List.mem_cons_self _ _)]
      rw [show setC ((ek, ev) :: rest) ek v = (ek, v) :: rest from by
        unfold setC; rw [if_pos rfl]]
      rw [List.map_cons]
    · rw [show setC ((ek, ev) :: rest) k v = (ek, ev) :: setC rest k v from by
        simp [setC, h]]
      rw [List.map_cons, ih]
      have hne : ¬ (k = ek) := fun hh => h hh.symm
      by_cases hm : k ∈ rest.map Prod.fst
      · rw [if_pos hm, if_pos (List.mem_cons.mpr (Or.inr hm))]
      · rw [if_neg hm, if_neg (by
          intro hh
          rcases List.mem_cons.mp hh with h1 | h1
          · exact hne h1
          · exact hm h1)]
        rfl

theorem nodup_setC (c : NodeMap) (k : Seg) (v : RouteNode)
    (h : (c.map Prod.fst).Nodup) : ((setC c k v).map Prod.fst).Nodup := by
  rw [setC_map_fst]
  split
  · exact h
  · rename_i hk
    refine List.Nodup.append h (List.nodup_singleton k) ?_
    intro a ha hb
    rw [List.mem_singleton.mp hb] at ha
    exact hk ha

theorem keysOK_nil : keysOK ([] : NodeMap) :=
  ⟨List.nodup_nil, fun k pos n h => by rw [lookupNode_nil] at h; exact absurd h (by simp)⟩

theorem keysOK_child (c : NodeMap) (hc : keysOK c) (key : Seg) (x0 : RouteNode)
    (hx : lookupC c key = some x0) : keysOK x0.children := by
  constructor
  · exact hc.2 key [] x0 hx
  · intro k pos n hn
    have hl : lookupNode c key (k :: pos) = some n := by
      simp [lookupNode, hx, hn]
    exact hc.2 key (k :: pos) n hl

theorem keysOK_setC (c : NodeMap) (key : Seg) (V : RouteNode) (hc : keysOK c)
    (hV : keysOK V.children) : keysOK (setC c key V) := by
  constructor
  · exact nodup_setC c key V hc.1
  · intro k pos n hn
    by_cases hk : k = key
    · subst hk
      cases pos with
      | nil =>
        rw [lookupNode_setC_self] at hn
        injection hn with hn
        rw [← hn]
        exact hV.1
      | cons q qs =>
        rw [lookupNode_setC_self] at hn
        exact hV.2 q qs n hn
    · rw [lookupNode_setC_ne _ _ _ _ _ hk] at hn
      exact hc.2 k pos n hn

theorem keysOK_insertGo : ∀ (parts : List Seg) (c : NodeMap) (h : Nat),
    keysOK c → keysOK (insertGo c parts h) := by
  intro parts
  induction parts with
  | nil => intro c h hc; exact hc
  | cons part rest ih =>
    intro c h hc
    have hxok : keysOK ((lookupC c (keyOf part)).getD newNode).children := by
      cases hx : lookupC c (keyOf part) with
      | some x0 => exact keysOK_child c hc _ x0 hx
      | none => exact keysOK_nil
    cases rest with
    | nil =>
      simp only [insertGo]
      apply keysOK_setC _ _ _ hc
      rw [RouteNode.children_mk, updParam_children]
      exact hxok
    | cons r rs =>
      simp only [insertGo]
      apply keysOK_setC _ _ _ hc
      rw [RouteNode.children_mk]
      apply ih
      rw [updParam_children]
      exact hxok

theorem keysOK_addRoute (t : Routes) (m : Method) (p : List Char) (h : Nat)
    (ht : ∀ m', keysOK (rootOf t m')) :
    ∀ m', keysOK (rootOf (addRoute t m p h) m') := by
  intro m'
  by_cases hm : m' = m
  · subst hm
    by_cases hp : p = ['/']
    · subst hp
      rw [rootOf_addRoute_root]
      exact keysOK_setC _ _ _ (ht m') keysOK_nil
    · rw [rootOf_addRoute_nonroot _ _ _ _ hp]
      exact keysOK_insertGo _ _ _ (ht m')
  · rw [rootOf_addRoute_other _ _ _ _ _ hm]
    exact ht m'

theorem keysOK_build : ∀ (rs : List Reg) (t : Routes),
    (∀ m, keysOK (rootOf t m)) →
    ∀ m, keysOK (rootOf (rs.foldl (fun t r => addRoute t r.1 r.2.1 r.2.2) t) m) := by
  intro rs
  induction rs with
  | nil => intro t h; exact h
  | cons r rs' ih =>
    intro t h
    exact ih _ (keysOK_addRoute t r.1 r.2.1 r.2.2 h)

theorem keysOK_create : ∀ m, keysOK (rootOf createRouteTree m) := by
  intro m; cases m <;> exact keysOK_nil

theorem filter_key_le_one (l : NodeMap) (a : Seg) (h : (l.map Prod.fst).Nodup) :
    (l.filter (fun e => e.1 = a)).length ≤ 1 := by
  induction l with
  | nil => simp
  | cons e rest ih =>
    rw [List.map_cons, List.nodup_cons] at h
    by_cases he : e.1 = a
    · have hrest : rest.filter (fun x => x.1 = a) = [] := by
        rw [List.filter_eq_nil_iff]
        intro x hx
        simp only [decide_eq_true_eq]
        intro hxa
        exact h.1 (by rw [he, ← hxa]; exact List.mem_map_of_mem Prod.fst hx)
      simp [List.filter_cons, he, hrest]
    · simp only [List.filter_cons, he, decide_eq_true_eq, if_false]
      exact ih h.2

/-! ### Claim theorem: trie invariants -/

/-- C9: after any sequence of registrations (`get`/`post`/`registerBlueprint`
all reduce to `addRoute` folds), a trie node carries a handler iff some
registered pattern's key path terminates exactly at that node (so
intermediate prefix nodes never carry one), every reachable children map has
duplicate-free keys and hence at most one dynamic (`":"`-keyed) child — which
by construction carries at most one bound parameter name (`paramName` is a
single optional field). -/
theorem c9_trie_invariants (regs : List Reg) (m : Method) (k : Seg) (pos : List Seg) :
    (handlerAt (rootOf (buildRoutes regs) m) k pos = true ↔ regMatches regs m k pos)
    ∧ ((rootOf (buildRoutes regs) m).map Prod.fst).Nodup
    ∧ (∀ n, lookupNode (rootOf (buildRoutes regs) m) k pos = some n →
        (n.children.map Prod.fst).Nodup ∧
          (n.children.filter (fun e => e.1 = [':'])).length ≤ 1) := by
  have hInv := handlerInv_build regs createRouteTree [] handlerInv_nil
  have hKeys := keysOK_build regs createRouteTree keysOK_create
  refine ⟨?_, (hKeys m).1, ?_⟩
  · have hh := hInv m k pos
    simpa using hh
  · intro n hn
    have hnd := (hKeys m).2 k pos n hn
    exact ⟨hnd, filter_key_le_one _ _ hnd⟩

/-- Witness for C9: the two-registration table `GET /a`, `GET /a/:x` evaluated
at the literal key path of `/a`. -/
theorem c9_trie_invariants_witness :
    ((RouteNode.mk [([':'], RouteNode.mk [] (some ['x']) (some 6))] none (some 5)
        : RouteNode).children.map Prod.fst).Nodup
    ∧ ((RouteNode.mk [([':'], RouteNode.mk [] (some ['x']) (some 6))] none (some 5)
        : RouteNode).children.filter (fun e => e.1 = [':'])).length ≤ 1 :=
  (c9_trie_invariants [(Method.GET, "/a".toList, 5), (Method.GET, "/a/:x".toList, 6)]
      Method.GET ['a'] []).2.2
    (RouteNode.mk [([':'], RouteNode.mk [] (some ['x']) (some 6))] none (some 5)) rfl

end Bunwork
